import Mathlib

/- Verification of the port-kill core: a shallow embedding of the scanner
(`app.rs`), the rule-based filter (`smart_filter.rs`) and the kill-escalation
controller, together with proofs of the specified properties. Rust strings are
modelled as lists of characters, `HashMap<u16, ProcessInfo>` as an association
list with replacing insertion, and the external platform capabilities (lsof,
signal delivery, liveness checks) as explicit environment parameters. -/

namespace PortKill

/-- Characters of a Rust `String` / `&str`. -/
abbrev Str := List Char

/-! ## String helpers shared by the embedded functions -/

/-- The characters escaped by `regex::escape` (the regex-syntax meta characters).
Only the fact that `*`, `?`, `.` and the backslash are in this set matters for
the semantics of the compiled wildcard patterns; escaping any further
punctuation character only ever produces an escaped literal with unchanged
meaning. -/
def isMetaChar (c : Char) : Bool :=
  c = '\\' || c = '.' || c = '+' || c = '*' || c = '?' || c = '(' || c = ')' ||
  c = '|' || c = '[' || c = ']' || c = Char.ofNat 123 || c = Char.ofNat 125 ||
  c = '^' || c = '$' || c = '#' || c = '&' || c = '-' || c = '~'

/-- Model of `regex::escape`: prefix every meta character with a backslash. -/
def regexEscape : Str → Str
  | [] => []
  | c :: s => if isMetaChar c then '\\' :: c :: regexEscape s else c :: regexEscape s

/-- Model of Rust `str::replace` specialised to a two-character pattern
`[a, b]`: scan left to right, replacing non-overlapping occurrences by `rep`. -/
def replacePair (a b : Char) (rep : Str) : Str → Str
  | [] => []
  | [c] => [c]
  | c :: d :: s =>
    if c = a ∧ d = b then rep ++ replacePair a b rep s
    else c :: replacePair a b rep (d :: s)

/-- The regex source built by `SmartFilter::new` for one wildcard pattern,
without the surrounding `^`/`$` anchors: `regex::escape`, then the escaped
`*` replaced by `.*`, then the escaped `?` replaced by `.`. -/
def compiledBody (p : Str) : Str :=
  replacePair '\\' '?' ['.'] (replacePair '\\' '*' ['.', '*'] (regexEscape p))

/-- One atom of the regex fragment reachable through the escape/replace
pipeline: a literal character, a dot (any character except newline), or a
dot-star (any run of characters none of which is a newline). -/
inductive RegexAtom
  | lit (c : Char)
  | dot
  | dotStar
deriving DecidableEq

/-- Reads the regex source produced by the pipeline back into its atoms: an
escaped character is a literal, `.*` a wildcard run, a bare `.` a
single-character wildcard, and any other character a literal. -/
def readAtoms : Str → List RegexAtom
  | [] => []
  | c :: r =>
    if c = '\\' then
      match r with
      | [] => [RegexAtom.lit c]
      | d :: r' => RegexAtom.lit d :: readAtoms r'
    else if c = '.' then
      match r with
      | [] => [RegexAtom.dot]
      | d :: r' =>
        if d = '*' then RegexAtom.dotStar :: readAtoms r'
        else RegexAtom.dot :: readAtoms (d :: r')
    else RegexAtom.lit c :: readAtoms r

/-- Tries `f` on every suffix reachable by skipping non-newline characters:
the match semantics of a leading `.*` (regex `.` does not match `\n`). -/
def starSkip (f : Str → Bool) : Str → Bool
  | [] => f []
  | c :: s => f (c :: s) || (!(c == '\n') && starSkip f s)

/-- Anchored matching of the compiled atoms against a candidate string; with
the `^`/`$` anchors and no multi-line flag, `Regex::is_match` is exactly a
full match of the body. -/
def matchAtoms : List RegexAtom → Str → Bool
  | [], s => s.isEmpty
  | RegexAtom.lit c :: as, s =>
    match s with
    | [] => false
    | d :: s' => (d == c) && matchAtoms as s'
  | RegexAtom.dot :: as, s =>
    match s with
    | [] => false
    | d :: s' => !(d == '\n') && matchAtoms as s'
  | RegexAtom.dotStar :: as, s => starSkip (fun t => matchAtoms as t) s

/-- Model of `compiled_pattern.is_match(candidate)` for one ignore pattern `p`
as compiled by `SmartFilter::new`: the anchored regex `^` body `$` applied to
the candidate. -/
def patternMatches (p : Str) (s : Str) : Bool :=
  matchAtoms (readAtoms (compiledBody p)) s

/-- Lower-casing as used by `determine_process_group` (`str::to_lowercase`);
`Char.toLower` agrees with it on the ASCII process and command names handled
here. -/
def toLowerStr (s : Str) : Str := s.map Char.toLower

/-- Model of Rust `str::contains(needle)`: some contiguous run of the haystack
equals the needle. -/
def strContains (needle : Str) : Str → Bool
  | [] => needle.isEmpty
  | c :: s => needle.isPrefixOf (c :: s) || strContains needle s

/-! ## Data model -/

/-- Model of `types::ProcessInfo`. The three optional floating-point usage
fields (`cpu_usage`, `memory_usage`, `memory_percentage`) are omitted: no
function embedded here ever reads them and every constructor modelled here
sets them to `None`. -/
structure ProcessInfo where
  pid : Int
  port : Nat
  command : Str
  name : Str
  container_id : Option Str
  container_name : Option Str
  command_line : Option Str
  working_directory : Option Str
  process_group : Option Str
  project_name : Option Str
deriving DecidableEq

/-- Model of `ProcessInfo::determine_process_group`: classify by well-known
toolchain names occurring in the lower-cased name or command. -/
def determine_process_group (info : ProcessInfo) : Option Str :=
  let nameLower := toLowerStr info.name
  let commandLower := toLowerStr info.command
  if strContains "node".data nameLower || strContains "node".data commandLower then
    some "Node.js".data
  else if strContains "python".data nameLower || strContains "python".data commandLower then
    some "Python".data
  else if strContains "java".data nameLower || strContains "java".data commandLower then
    some "Java".data
  else if nameLower = "go".data || nameLower = "golang".data ||
      List.isPrefixOf "go ".data commandLower || strContains " go ".data commandLower then
    some "Go".data
  else if strContains "rust".data nameLower || strContains "cargo".data commandLower then
    some "Rust".data
  else if strContains "php".data nameLower || strContains "php".data commandLower then
    some "PHP".data
  else if strContains "ruby".data nameLower || strContains "ruby".data commandLower then
    some "Ruby".data
  else if strContains "docker".data nameLower || strContains "docker".data commandLower then
    some "Docker".data
  else if strContains "nginx".data nameLower || strContains "apache".data commandLower then
    some "Web Server".data
  else if strContains "postgres".data nameLower || strContains "mysql".data nameLower ||
      strContains "redis".data nameLower then
    some "Database".data
  else none

/-- Path segments of a working directory, modelling `Path::components` on a
Unix path: the non-empty segments between separators, with the no-op `.`
segments removed. -/
def pathSegments (s : Str) : List Str :=
  (s.splitOn '/').filter (fun seg => seg ≠ [] ∧ seg ≠ ".".data)

/-- Model of `Path::file_name` on a Unix path: the final component, unless the
path ends in a parent-directory reference or has no component at all. -/
def pathFileName (s : Str) : Option Str :=
  match (pathSegments s).getLast? with
  | some seg => if seg = "..".data then none else some seg
  | none => none

/-- The directory-name keywords scanned by `extract_project_name`. -/
def projectKeywords : List Str :=
  ["project", "app", "service", "api", "frontend", "backend", "client", "server"].map
    String.data

/-- The fallback loop of `extract_project_name`: walk the path components in
reverse and return the first one that is not a home-like segment and contains
a project keyword. -/
def projectKeywordScan (wd : Str) : Option Str :=
  (pathSegments wd).reverse.find? (fun part =>
    decide (part ≠ [] ∧ part ≠ "~".data ∧ part ≠ "home".data ∧ part ≠ "Users".data) &&
      projectKeywords.any (fun k => strContains k part))

/-- Model of `ProcessInfo::extract_project_name`: the file name of the working
directory when it is meaningful, otherwise the keyword scan; `None` without a
working directory. -/
def extract_project_name (info : ProcessInfo) : Option Str :=
  match info.working_directory with
  | none => none
  | some wd =>
    match pathFileName wd with
    | some nm => if nm ≠ [] ∧ nm ≠ "~".data then some nm else projectKeywordScan wd
    | none => projectKeywordScan wd

/-! ## Filter (`smart_filter.rs`) -/

/-- Model of `SmartFilter`. The `HashSet` fields are modelled as lists (only
membership is ever consulted); `ignore_patterns` holds the wildcard sources of
the compiled regexes, matched through `patternMatches`. -/
structure SmartFilter where
  ignore_ports : List Nat
  ignore_processes : List Str
  ignore_patterns : List Str
  ignore_groups : List Str
  only_groups : Option (List Str)

/-- Model of `SmartFilter::should_ignore_process`, transcribed check by check:
port ignore list, then name ignore list, then compiled patterns against name
and command, then group ignore list, then the only-groups allow set. -/
def should_ignore_process (f : SmartFilter) (info : ProcessInfo) : Bool :=
  if info.port ∈ f.ignore_ports then true
  else if info.name ∈ f.ignore_processes then true
  else if f.ignore_patterns.any
      (fun p => patternMatches p info.name || patternMatches p info.command) then true
  else if (match info.process_group with
           | some g => decide (g ∈ f.ignore_groups)
           | none => false) then true
  else
    match f.only_groups with
    | some og =>
      match info.process_group with
      | some g => !(decide (g ∈ og))
      | none => true
    | none => false

/-- Model of `SmartFilter::filter_processes` on an association list: retain the
records that are not ignored. -/
def filter_processes (f : SmartFilter) (m : List (Nat × ProcessInfo)) :
    List (Nat × ProcessInfo) :=
  m.filter (fun e => !(should_ignore_process f e.2))

/-! ## lsof output parsing (`app.rs`) -/

/-- Worker for `splitWhitespace`, carrying the reversed current token. -/
def splitWsAux : Str → Str → List Str
  | [], acc => if acc = [] then [] else [acc.reverse]
  | c :: s, acc =>
    if c.isWhitespace then
      (if acc = [] then splitWsAux s [] else acc.reverse :: splitWsAux s [])
    else splitWsAux s (c :: acc)

/-- Model of Rust `str::split_whitespace`: the maximal runs of non-whitespace
characters. -/
def splitWhitespace (s : Str) : List Str := splitWsAux s []

/-- Splitting on one character, keeping empty segments; like Rust
`str::split(sep)` this always yields at least one segment. -/
def splitOnChar (sep : Char) : Str → List Str
  | [] => [[]]
  | c :: s =>
    if c = sep then [] :: splitOnChar sep s
    else
      match splitOnChar sep s with
      | seg :: rest => (c :: seg) :: rest
      | [] => [[c]]

/-- Model of Rust `str::lines`: split on `\n`, drop the segment after a final
newline, strip one trailing `\r` from each line. -/
def rustLines (s : Str) : List Str :=
  if s = [] then []
  else
    let segs := splitOnChar '\n' s
    let segs := if segs.getLast? = some [] then segs.dropLast else segs
    segs.map (fun l => if l.getLast? = some '\r' then l.dropLast else l)

/-- The value of a non-empty all-digit string, `none` otherwise. -/
def digitsVal (s : Str) : Option Nat :=
  if s = [] then none
  else if s.all Char.isDigit then
    some (s.foldl (fun n c => n * 10 + (c.toNat - 48)) 0)
  else none

/-- Model of `str::parse::<u16>`: optional leading plus sign, decimal digits,
overflow is an error. -/
def parseU16 (s : Str) : Option Nat :=
  let t := match s with
    | '+' :: r => r
    | _ => s
  match digitsVal t with
  | some n => if n < 65536 then some n else none
  | none => none

/-- Model of `str::parse::<i32>`: optional sign, decimal digits, overflow is
an error. -/
def parseI32 (s : Str) : Option Int :=
  match s with
  | '-' :: r =>
    (digitsVal r).bind (fun n => if (n : Int) ≤ 2 ^ 31 then some (-(n : Int)) else none)
  | '+' :: r =>
    (digitsVal r).bind (fun n => if (n : Int) < 2 ^ 31 then some ((n : Int)) else none)
  | r =>
    (digitsVal r).bind (fun n => if (n : Int) < 2 ^ 31 then some ((n : Int)) else none)

/-- Model of `parts[8].split(':').last().unwrap_or("0")`. -/
def lastColonField (s : Str) : Str :=
  ((splitOnChar ':' s).getLast?).getD "0".data

/-- Model of `HashMap<u16, ProcessInfo>`: an association list from port to
record. All maps built here have pairwise distinct keys. -/
abbrev Snapshot := List (Nat × ProcessInfo)

/-- Lookup of a port key. -/
def lookupPort : Snapshot → Nat → Option ProcessInfo
  | [], _ => none
  | e :: m, k => if e.1 = k then some e.2 else lookupPort m k

/-- Model of `HashMap::insert`: replace the value of an existing key, append a
fresh binding otherwise. -/
def insertR : Snapshot → Nat → ProcessInfo → Snapshot
  | [], k, v => [(k, v)]
  | e :: m, k, v => if e.1 = k then (k, v) :: m else e :: insertR m k v

/-- The port keys of a snapshot. -/
def snapKeys (m : Snapshot) : List Nat := m.map (fun e => e.1)

/-- The loop body of `parse_lsof_output_filtered` for one output line: the
(port, record) pair to insert, or `none` when the line is skipped (short line,
unparsable pid or port, port outside the requested filter, ignored port, or
ignored process name). -/
def parseLsofLine (portsFilter ignorePorts : List Nat) (ignoreProcesses : List Str)
    (line : Str) : Option (Nat × ProcessInfo) :=
  let parts := splitWhitespace line
  if parts.length < 9 then none
  else
    match parseI32 (parts.getD 1 []) with
    | none => none
    | some pid =>
      match parseU16 (lastColonField (parts.getD 8 [])) with
      | none => none
      | some port =>
        if portsFilter ≠ [] ∧ port ∉ portsFilter then none
        else if port ∈ ignorePorts then none
        else if parts.getD 0 [] ∈ ignoreProcesses then none
        else
          let info : ProcessInfo :=
            { pid := pid, port := port, command := parts.getD 0 [],
              name := parts.getD 0 [], container_id := none, container_name := none,
              command_line := none, working_directory := none,
              process_group := none, project_name := none }
          let info := { info with process_group := determine_process_group info }
          let info := { info with project_name := extract_project_name info }
          some (port, info)

/-- One iteration of the parsing loop: insert the accepted line, keep the map
unchanged on a skipped line. -/
def parseLsofStep (portsFilter ignorePorts : List Nat) (ignoreProcesses : List Str)
    (m : Snapshot) (line : Str) : Snapshot :=
  match parseLsofLine portsFilter ignorePorts ignoreProcesses line with
  | some kv => insertR m kv.1 kv.2
  | none => m

/-- The parsing loop over an explicit list of lines. -/
def parseLsofLinesFold (portsFilter ignorePorts : List Nat) (ignoreProcesses : List Str)
    (lines : List Str) (processes : Snapshot) : Snapshot :=
  lines.foldl (parseLsofStep portsFilter ignorePorts ignoreProcesses) processes

/-- Model of `PortKillApp::parse_lsof_output_filtered`: fold the accepted
lines (skipping the header line) into the accumulated map with replacing
insertion. -/
def parse_lsof_output_filtered (stdout : Str) (portsFilter ignorePorts : List Nat)
    (ignoreProcesses : List Str) (processes : Snapshot) : Snapshot :=
  parseLsofLinesFold portsFilter ignorePorts ignoreProcesses
    ((rustLines stdout).drop 1) processes

/-! ## Port scanning (`app.rs`) -/

/-- One invocation of the platform enumeration tool: either the single
list-everything query of the large-range strategy, or one chunked per-port
query. -/
inductive LsofQuery
  | allTcp
  | portsChunk (ports : List Nat)
deriving DecidableEq

/-- The platform environment for a scan: the stdout produced by each possible
lsof invocation, `none` when the command cannot be invoked at all. (A
completed invocation with failing exit status still has its stdout parsed;
the extra status check of the large-range branch only skips parsing an empty
stdout, which parses to nothing anyway.) -/
abbrev LsofEnv := LsofQuery → Option Str

def MAX_PORTS_PER_LSOF : Nat := 100

def LARGE_RANGE_THRESHOLD : Nat := 200

/-- Worker for `chunksPorts` with an explicit structural fuel; the fuel starts
at the list length, which always suffices. -/
def chunksGo : Nat → List Nat → List (List Nat)
  | _, [] => []
  | 0, l => [l]
  | Nat.succ fuel, x :: xs =>
    (x :: xs.take (MAX_PORTS_PER_LSOF - 1)) :: chunksGo fuel (xs.drop (MAX_PORTS_PER_LSOF - 1))

/-- Model of `ports.chunks(MAX_PORTS_PER_LSOF)`: consecutive chunks of at most
100 ports, the last one possibly shorter. -/
def chunksPorts (l : List Nat) : List (List Nat) := chunksGo l.length l

/-- One iteration of the chunked scanning loop: invoke lsof for the chunk,
parse its stdout into the accumulated map (a failed invocation is logged and
contributes nothing), and record the invocation. -/
def scanChunkStep (ports ignorePorts : List Nat) (ignoreProcesses : List Str)
    (env : LsofEnv) (st : Snapshot × List LsofQuery) (chunk : List Nat) :
    Snapshot × List LsofQuery :=
  let m :=
    match env (LsofQuery.portsChunk chunk) with
    | some stdout => parse_lsof_output_filtered stdout ports ignorePorts ignoreProcesses st.1
    | none => st.1
  (m, st.2 ++ [LsofQuery.portsChunk chunk])

/-- Model of `PortKillApp::get_processes_on_ports_unix`. Besides the count and
the map the result carries the list of lsof invocations that were issued, so
that the number of external invocations is part of the observable behaviour.
A failed invocation is logged and contributes nothing. -/
def get_processes_on_ports_unix (ports ignorePorts : List Nat)
    (ignoreProcesses : List Str) (env : LsofEnv) :
    Nat × Snapshot × List LsofQuery :=
  if ports.length > LARGE_RANGE_THRESHOLD then
    let m :=
      match env LsofQuery.allTcp with
      | some stdout => parse_lsof_output_filtered stdout ports ignorePorts ignoreProcesses []
      | none => []
    (m.length, m, [LsofQuery.allTcp])
  else
    let r := (chunksPorts ports).foldl
      (scanChunkStep ports ignorePorts ignoreProcesses env) ([], [])
    (r.1.length, r.1, r.2)

/-- Model of `PortKillApp::get_processes_on_ports` (non-Windows path): an
empty requested set returns an empty snapshot immediately, without issuing
any invocation. -/
def get_processes_on_ports (ports ignorePorts : List Nat)
    (ignoreProcesses : List Str) (env : LsofEnv) :
    Nat × Snapshot × List LsofQuery :=
  if ports = [] then (0, [], [])
  else get_processes_on_ports_unix ports ignorePorts ignoreProcesses env

/-! ## Kill controller (`app.rs`) -/

/-- The platform behaviour relevant to one `kill_process` run: whether the
SIGTERM delivery succeeds, whether the pid is still running when re-checked
after the grace period, and whether the SIGKILL delivery succeeds. -/
structure KillEnv where
  sigtermDelivers : Bool
  stillRunningAfterGrace : Bool
  sigkillDelivers : Bool
deriving DecidableEq

/-- The externally visible actions of one `kill_process` run, in order. -/
inductive KillEvent
  | sendSigterm
  | waitMillis (n : Nat)
  | checkStillRunning
  | sendSigkill
deriving DecidableEq

/-- The classification a `kill_process` run ends in, read off its terminal log
message: graceful termination, escalation with a delivered SIGKILL, or an
unknown outcome when even the SIGKILL could not be delivered. -/
inductive KillClass
  | graceful
  | escalated
  | unknownOutcome
deriving DecidableEq

/-- Model of `PortKillApp::kill_process` (non-Windows path): send SIGTERM
(a delivery failure is only logged), sleep 500 ms, re-check liveness with
`ps -p`, and send SIGKILL only when the pid is still running (again, a
delivery failure is only logged). The result carries the Rust `Result`, the
action sequence, and the terminal classification. -/
def kill_process (pid : Int) (env : KillEnv) :
    Except Str Unit × List KillEvent × KillClass :=
  let prelude : List KillEvent :=
    [KillEvent.sendSigterm, KillEvent.waitMillis 500, KillEvent.checkStillRunning]
  if env.stillRunningAfterGrace then
    (Except.ok (), prelude ++ [KillEvent.sendSigkill],
      if env.sigkillDelivers then KillClass.escalated else KillClass.unknownOutcome)
  else
    (Except.ok (), prelude, KillClass.graceful)

/-- The classification `kill_process` assigns to a run under environment `e`,
as an explicit function of the environment. -/
def killClassify (e : KillEnv) : KillClass :=
  if e.stillRunningAfterGrace then
    (if e.sigkillDelivers then KillClass.escalated else KillClass.unknownOutcome)
  else KillClass.graceful

/-- The loop body of `extract_pids_from_lsof_output` for one line: the pid to
collect, or `none` when the line is skipped. The checks mirror
`parseLsofLine`: field count, pid and port parsing, the requested-port
filter, and the two ignore lists. -/
def extractPidsLine (portsFilter ignorePorts : List Nat) (ignoreProcesses : List Str)
    (line : Str) : Option Int :=
  let parts := splitWhitespace line
  if parts.length < 9 then none
  else
    match parseI32 (parts.getD 1 []) with
    | none => none
    | some pid =>
      match parseU16 (lastColonField (parts.getD 8 [])) with
      | none => none
      | some port =>
        if portsFilter ≠ [] ∧ port ∉ portsFilter then none
        else if port ∈ ignorePorts then none
        else if parts.getD 0 [] ∈ ignoreProcesses then none
        else some pid

/-- One iteration of the pid-collection loop, with the source's
deduplicating `contains` check. -/
def extractPidsStep (portsFilter ignorePorts : List Nat) (ignoreProcesses : List Str)
    (pids : List Int) (line : Str) : List Int :=
  match extractPidsLine portsFilter ignorePorts ignoreProcesses line with
  | some pid => if pid ∈ pids then pids else pids ++ [pid]
  | none => pids

/-- Model of `PortKillApp::extract_pids_from_lsof_output`: collect the pids of
the accepted lines (skipping the header), deduplicating as the source does
with its `contains` check. -/
def extract_pids_from_lsof_output (stdout : Str) (portsFilter ignorePorts : List Nat)
    (ignoreProcesses : List Str) (acc : List Int) : List Int :=
  ((rustLines stdout).drop 1).foldl
    (extractPidsStep portsFilter ignorePorts ignoreProcesses) acc

/-- The pid-resolution phase of `kill_all_processes_unix` in its chunked
regime (at most `LARGE_RANGE_THRESHOLD` ports): one lsof invocation per chunk,
a failed invocation is logged and skipped. -/
def resolvePidsChunked (ports ignorePorts : List Nat) (ignoreProcesses : List Str)
    (env : LsofEnv) : List Int :=
  (chunksPorts ports).foldl
    (fun acc chunk =>
      match env (LsofQuery.portsChunk chunk) with
      | some stdout => extract_pids_from_lsof_output stdout ports ignorePorts ignoreProcesses acc
      | none => acc)
    []

/-- The kill loop of `kill_all_processes_unix`: call `kill_process` on every
resolved pid in order; the per-pid results are only logged, so the pair
returned to the caller is the Rust `Ok(())` together with the sequence of
logged per-pid classifications. -/
def runKillLoop (pids : List Int) (kenv : Int → KillEnv) :
    Except Str Unit × List (Int × KillClass) :=
  (Except.ok (), pids.map (fun pid => (pid, (kill_process pid (kenv pid)).2.2)))

/-- Model of `PortKillApp::kill_all_processes_unix`. In the large-range regime
a failed lsof invocation aborts with an error; in the chunked regime failed
invocations are skipped. The second component is the log of per-pid
classifications; the first is the value returned to the caller. -/
def kill_all_processes_unix (ports ignorePorts : List Nat) (ignoreProcesses : List Str)
    (env : LsofEnv) (kenv : Int → KillEnv) :
    Except Str Unit × List (Int × KillClass) :=
  if ports.length > LARGE_RANGE_THRESHOLD then
    match env LsofQuery.allTcp with
    | none => (Except.error "Failed to run lsof".data, [])
    | some stdout =>
      runKillLoop (extract_pids_from_lsof_output stdout ports ignorePorts ignoreProcesses [])
        kenv
  else
    runKillLoop (resolvePidsChunked ports ignorePorts ignoreProcesses env) kenv

/-- Model of `PortKillApp::kill_all_processes` (non-Windows path): an empty
port list returns `Ok(())` immediately. -/
def kill_all_processes (ports ignorePorts : List Nat) (ignoreProcesses : List Str)
    (env : LsofEnv) (kenv : Int → KillEnv) :
    Except Str Unit × List (Int × KillClass) :=
  if ports = [] then (Except.ok (), [])
  else kill_all_processes_unix ports ignorePorts ignoreProcesses env kenv

/-! ## Monitor loop (`app.rs`, `PortKillApp::run`) -/

/-- The concurrency-relevant state of the event loop: the atomic in-flight
flag `is_killing_processes`, the number of kill workers currently running,
and a count of display-layer requests dropped while a kill was in flight. -/
structure LoopState where
  isKilling : Bool
  activeWorkers : Nat
  droppedRequests : Nat
deriving DecidableEq

/-- The two events the guard logic reacts to: a display-layer kill request
arriving at the event loop, and the active worker finishing (it stores
`false` into the flag as its last action). -/
inductive LoopEvent
  | menuRequest
  | workerDone
deriving DecidableEq

def initLoopState : LoopState :=
  { isKilling := false, activeWorkers := 0, droppedRequests := 0 }

/-- One step of the guard logic of `PortKillApp::run`: a menu event is handled
only when the in-flight flag is clear (set the flag, spawn one worker);
otherwise the request is logged and dropped, not queued. A finishing worker
clears the flag. -/
def loopStep (s : LoopState) : LoopEvent → LoopState
  | LoopEvent.menuRequest =>
    if s.isKilling then { s with droppedRequests := s.droppedRequests + 1 }
    else { s with isKilling := true, activeWorkers := s.activeWorkers + 1 }
  | LoopEvent.workerDone =>
    if s.activeWorkers = 0 then s
    else { s with isKilling := false, activeWorkers := s.activeWorkers - 1 }

/-- The state after a sequence of events, starting from the initial state. -/
def runLoop (evs : List LoopEvent) : LoopState := evs.foldl loopStep initLoopState

/-- The pre-publish validation of the monitor loop: keep only the records
whose pid is still alive according to `is_process_still_running`. -/
def validateProcesses (running : Int → Bool) (ps : Snapshot) : Snapshot :=
  ps.filter (fun e => running e.2.pid)

/-- The process count the menu-update branch publishes: the size of the
validated map, with the empty-map branch publishing zero. -/
def menuUpdateCount (running : Int → Bool) (ps : Snapshot) : Nat :=
  let valid := validateProcesses running ps
  if valid = [] then 0 else valid.length

/-! ## Specification-side definitions used by the claims -/

/-- Tries `f` on every suffix of the input: the meaning of a wildcard `*`
that may stand for any run of characters whatsoever. -/
def anySuffix (f : Str → Bool) : Str → Bool
  | [] => f []
  | c :: s => f (c :: s) || anySuffix f s

/-- Wildcard matching exactly as claim C7 words it: `*` stands for any run of
characters, `?` for any single character, every other character only for
itself, anchored to the whole candidate. -/
def specGlobMatch : Str → Str → Bool
  | [], s => s.isEmpty
  | c :: p, s =>
    if c = '*' then anySuffix (fun t => specGlobMatch p t) s
    else if c = '?' then
      match s with
      | [] => false
      | _ :: s' => specGlobMatch p s'
    else
      match s with
      | [] => false
      | d :: s' => (d == c) && specGlobMatch p s'

/-- Wildcard matching as the compiled patterns actually behave: like
`specGlobMatch` except that neither `*` nor `?` matches a newline character,
because regex `.` does not match `\n`. -/
def globMatchNoNewline : Str → Str → Bool
  | [], s => s.isEmpty
  | c :: p, s =>
    if c = '*' then starSkip (fun t => globMatchNoNewline p t) s
    else if c = '?' then
      match s with
      | [] => false
      | d :: s' => !(d == '\n') && globMatchNoNewline p s'
    else
      match s with
      | [] => false
      | d :: s' => (d == c) && globMatchNoNewline p s'

/-- The record kept for port `k` by a run of the parsing loop over `lines`,
described independently of the map: the record of the last accepted line
whose port is `k`. -/
def lastForLines (portsFilter ignorePorts : List Nat) (ignoreProcesses : List Str)
    (lines : List Str) (k : Nat) : Option ProcessInfo :=
  lines.reverse.findSome?
    (fun line =>
      match parseLsofLine portsFilter ignorePorts ignoreProcesses line with
      | some kv => if kv.1 = k then some kv.2 else none
      | none => none)

/-- The record `parse_lsof_output_filtered` keeps for port `k`: the record of
the last accepted line for `k`. -/
def lastAcceptedFor (stdout : Str) (portsFilter ignorePorts : List Nat)
    (ignoreProcesses : List Str) (k : Nat) : Option ProcessInfo :=
  lastForLines portsFilter ignorePorts ignoreProcesses ((rustLines stdout).drop 1) k

/-! ## Block structure of the pattern compilation pipeline -/

/-- What one source character of a wildcard pattern contributes to the
intermediate string after `regex::escape` and the replacement of the escaped
`*`. -/
def starBlock (c : Char) : Str :=
  if c = '*' then ['.', '*']
  else if isMetaChar c then ['\\', c]
  else [c]

/-- What one source character of a wildcard pattern contributes to the final
compiled regex body. -/
def atomBlock (c : Char) : Str :=
  if c = '*' then ['.', '*']
  else if c = '?' then ['.']
  else if isMetaChar c then ['\\', c]
  else [c]

/-- The regex atom one source character of a wildcard pattern denotes. -/
def atomOf (c : Char) : RegexAtom :=
  if c = '*' then RegexAtom.dotStar
  else if c = '?' then RegexAtom.dot
  else RegexAtom.lit c

/-- The intermediate string of the compilation pipeline after the first
replacement. -/
def stageOne (p : Str) : Str :=
  replacePair '\\' '*' ['.', '*'] (regexEscape p)

/-! ## Concrete sample data used by witnesses and counterexamples -/

/-- An lsof header line of the usual shape. -/
def lsofHeader : Str :=
  "COMMAND PID USER FD TYPE DEVICE SIZE NODE NAME".data

/-- An lsof output line reporting pid 111, name node, listening on 3000. -/
def lsofLineNode3000 : Str :=
  "node 111 root 23u IPv4 0x1 0t0 TCP 127.0.0.1:3000".data

/-- An lsof output line reporting pid 222, name ruby, listening on 3000. -/
def lsofLineRuby3000 : Str :=
  "ruby 222 root 24u IPv4 0x2 0t0 TCP 127.0.0.1:3000".data

/-- An lsof output line reporting pid 222, name xpro, listening on 8080. -/
def lsofLineXpro8080 : Str :=
  "xpro 222 root 24u IPv4 0x2 0t0 TCP 127.0.0.1:8080".data

/-- An lsof output line reporting pid 222, name xpro, listening on 9999. -/
def lsofLineXpro9999 : Str :=
  "xpro 222 root 24u IPv4 0x2 0t0 TCP 127.0.0.1:9999".data

/-- An lsof output whose two data lines report different pids on the same
port 3000. -/
def dupPortStdout : Str :=
  lsofHeader ++ '\n' :: lsofLineNode3000 ++ '\n' :: lsofLineRuby3000 ++ ['\n']

/-- A scan environment answering the chunk query for ports 3000 and 8080 with
one record on requested port 3000 and one on unrequested port 9999. -/
def sampleScanEnv : LsofEnv := fun q =>
  match q with
  | LsofQuery.portsChunk c =>
    if c = [3000, 8080] then
      some (lsofHeader ++ '\n' :: lsofLineNode3000 ++ '\n' :: lsofLineXpro9999 ++ ['\n'])
    else none
  | LsofQuery.allTcp => none

/-- A scan environment answering the chunk query for ports 3000 and 8080 with
pids 111 (port 3000) and 222 (port 8080). -/
def bulkScanEnv : LsofEnv := fun q =>
  match q with
  | LsofQuery.portsChunk c =>
    if c = [3000, 8080] then
      some (lsofHeader ++ '\n' :: lsofLineNode3000 ++ '\n' :: lsofLineXpro8080 ++ ['\n'])
    else none
  | LsofQuery.allTcp => none

/-- The record the scan builds from `lsofLineNode3000`. -/
def nodeRec3000 : ProcessInfo :=
  { pid := 111, port := 3000, command := "node".data, name := "node".data,
    container_id := none, container_name := none, command_line := none,
    working_directory := none, process_group := some "Node.js".data,
    project_name := none }

/-- A kill environment where pid 111 resists SIGTERM and SIGKILL delivery
fails, while every other pid terminates gracefully. -/
def kenvMixed : Int → KillEnv := fun p =>
  if p = 111 then
    { sigtermDelivers := false, stillRunningAfterGrace := true, sigkillDelivers := false }
  else
    { sigtermDelivers := true, stillRunningAfterGrace := false, sigkillDelivers := true }

/-- A kill environment where every pid terminates gracefully. -/
def kenvAllGraceful : Int → KillEnv := fun _ =>
  { sigtermDelivers := true, stillRunningAfterGrace := false, sigkillDelivers := true }

/-- A platform environment in which the enumeration tool can never be
invoked. -/
def failLsofEnv : LsofEnv := fun _ => none

/-- A rule set whose only rule is the ignore pattern node-star. -/
def nodePatternFilter : SmartFilter :=
  { ignore_ports := [], ignore_processes := [], ignore_patterns := ["node*".data],
    ignore_groups := [], only_groups := none }

/-- A filter whose only rule is the allow-set restricting visibility to the
group A. -/
def onlyGroupsFilterA : SmartFilter :=
  { ignore_ports := [], ignore_processes := [], ignore_patterns := [],
    ignore_groups := [], only_groups := some ["A".data] }

/-- A record whose derived group is B. -/
def groupBRecord : ProcessInfo :=
  { pid := 1, port := 3000, command := "x".data, name := "x".data,
    container_id := none, container_name := none, command_line := none,
    working_directory := none, process_group := some "B".data,
    project_name := none }

/-- A small record with a given pid and port, used by the validation
witness. -/
def plainRec (n : Int) (k : Nat) : ProcessInfo :=
  { pid := n, port := k, command := "x".data, name := "x".data,
    container_id := none, container_name := none, command_line := none,
    working_directory := none, process_group := none, project_name := none }

/-- A two-entry snapshot whose first record is alive under `pid = 1` and whose
second is not. -/
def samplePs : Snapshot := [(3000, plainRec 1 3000), (8080, plainRec 2 8080)]

/-! ## Helper lemmas -/

/-- The classification component of a `kill_process` run is `killClassify` of
its environment. -/
theorem kill_process_class (pid : Int) (env : KillEnv) :
    (kill_process pid env).2.2 = killClassify env := by
  rcases env with ⟨t, r, k⟩
  cases r <;> cases k <;> rfl

/-- One guard step preserves the at-most-one-worker invariant. -/
theorem loopStep_inv (s : LoopState) (e : LoopEvent)
    (h1 : s.activeWorkers ≤ 1) (h2 : s.isKilling = true ↔ s.activeWorkers = 1) :
    (loopStep s e).activeWorkers ≤ 1 ∧
      ((loopStep s e).isKilling = true ↔ (loopStep s e).activeWorkers = 1) := by
  cases e <;> simp only [loopStep] <;> split_ifs with h <;> simp_all <;> omega

/-- The at-most-one-worker invariant holds in every reachable state. -/
theorem runLoop_inv (evs : List LoopEvent) :
    (runLoop evs).activeWorkers ≤ 1 ∧
      ((runLoop evs).isKilling = true ↔ (runLoop evs).activeWorkers = 1) := by
  have main : ∀ (l : List LoopEvent) (s : LoopState),
      s.activeWorkers ≤ 1 → (s.isKilling = true ↔ s.activeWorkers = 1) →
      (l.foldl loopStep s).activeWorkers ≤ 1 ∧
        ((l.foldl loopStep s).isKilling = true ↔ (l.foldl loopStep s).activeWorkers = 1) := by
    intro l
    induction l with
    | nil => intro s h1 h2; exact ⟨h1, h2⟩
    | cons e l ih =>
      intro s h1 h2
      have h := loopStep_inv s e h1 h2
      exact ih (loopStep s e) h.1 h.2
  exact main evs initLoopState (by simp [initLoopState]) (by simp [initLoopState])

/-- A line accepted by the parser passed the requested-ports filter and both
ignore lists, and the key is the record's port. -/
theorem parseLsofLine_mem (pf ip : List Nat) (inp : List Str) (line : Str)
    (k : Nat) (v : ProcessInfo)
    (h : parseLsofLine pf ip inp line = some (k, v)) :
    (pf ≠ [] → k ∈ pf) ∧ k ∉ ip ∧ v.name ∉ inp ∧ v.port = k := by
  simp only [parseLsofLine] at h
  split at h
  · exact Option.noConfusion h
  split at h
  · exact Option.noConfusion h
  split at h
  · exact Option.noConfusion h
  split at h
  · exact Option.noConfusion h
  split at h
  · exact Option.noConfusion h
  split at h
  · exact Option.noConfusion h
  rename_i hfilter hip hname
  rw [Option.some.injEq, Prod.mk.injEq] at h
  obtain ⟨hk, hv⟩ := h
  subst hk
  subst hv
  refine ⟨fun hne => ?_, hip, hname, rfl⟩
  rcases not_and_or.mp hfilter with h | h
  · exact absurd hne h
  · exact not_not.mp h

/-- Every element of a map after a replacing insertion is the inserted pair or
an original element. -/
theorem mem_insertR (m : Snapshot) (k : Nat) (v : ProcessInfo)
    (e : Nat × ProcessInfo) (h : e ∈ insertR m k v) : e = (k, v) ∨ e ∈ m := by
  induction m with
  | nil => simpa [insertR] using h
  | cons a m ih =>
    by_cases hk : a.1 = k
    · simp only [insertR, if_pos hk] at h
      rcases List.mem_cons.mp h with h | h
      · exact Or.inl h
      · exact Or.inr (List.mem_cons_of_mem a h)
    · simp only [insertR, if_neg hk] at h
      rcases List.mem_cons.mp h with h | h
      · exact Or.inr (h ▸ List.mem_cons_self a m)
      · rcases ih h with h | h
        · exact Or.inl h
        · exact Or.inr (List.mem_cons_of_mem a h)

/-- Lookup after a replacing insertion. -/
theorem lookupPort_insertR (m : Snapshot) (k k' : Nat) (v : ProcessInfo) :
    lookupPort (insertR m k v) k' = if k = k' then some v else lookupPort m k' := by
  induction m with
  | nil => simp [insertR, lookupPort]
  | cons a m ih =>
    by_cases hk : a.1 = k
    · by_cases hk' : k = k' <;> simp [insertR, lookupPort, hk, hk']
    · by_cases hk' : a.1 = k'
      · have hne : ¬ k = k' := fun hh => hk (hk'.trans hh.symm)
        have hne' : ¬ k' = k := fun hh => hne hh.symm
        simp [insertR, lookupPort, hk, hk', hne, hne']
      · simp [insertR, lookupPort, hk, hk', ih]

/-- Keys after a replacing insertion come from the inserted key or the
original keys. -/
theorem snapKeys_insertR (m : Snapshot) (k : Nat) (v : ProcessInfo) (x : Nat)
    (h : x ∈ snapKeys (insertR m k v)) : x = k ∨ x ∈ snapKeys m := by
  induction m with
  | nil => simpa [insertR, snapKeys] using h
  | cons a m ih =>
    by_cases hk : a.1 = k
    · simp only [insertR, if_pos hk, snapKeys, List.map_cons] at h
      rcases List.mem_cons.mp h with h | h
      · exact Or.inl h
      · exact Or.inr (by simp [snapKeys, List.mem_cons]; right; simpa [snapKeys] using h)
    · simp only [insertR, if_neg hk, snapKeys, List.map_cons] at h
      rcases List.mem_cons.mp h with h | h
      · exact Or.inr (by simp [snapKeys]; exact Or.inl h)
      · rcases ih (by simpa [snapKeys] using h) with h | h
        · exact Or.inl h
        · exact Or.inr (by simp [snapKeys] at h ⊢; exact Or.inr h)

/-- A replacing insertion preserves distinctness of the keys. -/
theorem nodup_insertR (m : Snapshot) (k : Nat) (v : ProcessInfo)
    (h : (snapKeys m).Nodup) : (snapKeys (insertR m k v)).Nodup := by
  induction m with
  | nil => simp [insertR, snapKeys]
  | cons a m ih =>
    simp only [snapKeys, List.map_cons, List.nodup_cons] at h
    obtain ⟨ha, hm⟩ := h
    by_cases hk : a.1 = k
    · simp only [insertR, if_pos hk, snapKeys, List.map_cons, List.nodup_cons]
      exact ⟨by simpa [snapKeys, hk] using ha, hm⟩
    · simp only [insertR, if_neg hk, snapKeys, List.map_cons, List.nodup_cons]
      refine ⟨?_, ih hm⟩
      intro hx
      rcases snapKeys_insertR m k v a.1 (by simpa [snapKeys] using hx) with h | h
      · exact hk h
      · exact ha (by simpa [snapKeys] using h)

/-- Any per-element property implied by line acceptance is an invariant of
the parsing loop. -/
theorem parseFold_inv (pf ip : List Nat) (inp : List Str)
    (P : Nat × ProcessInfo → Prop)
    (hP : ∀ line kv, parseLsofLine pf ip inp line = some kv → P kv) :
    ∀ (lines : List Str) (acc : Snapshot), (∀ e ∈ acc, P e) →
      ∀ e ∈ parseLsofLinesFold pf ip inp lines acc, P e := by
  intro lines
  induction lines with
  | nil =>
    intro acc hacc e he
    exact hacc e (by simpa [parseLsofLinesFold] using he)
  | cons l ls ih =>
    intro acc hacc e he
    have hstep : ∀ e ∈ parseLsofStep pf ip inp acc l, P e := by
      intro e he'
      unfold parseLsofStep at he'
      split at he'
      · rename_i kv hkv
        rcases mem_insertR acc kv.1 kv.2 e he' with h | h
        · rw [h]
          exact hP l (kv.1, kv.2) (by simpa using hkv)
        · exact hacc e h
      · exact hacc e he'
    exact ih (parseLsofStep pf ip inp acc l) hstep e
      (by simpa [parseLsofLinesFold, List.foldl_cons] using he)

/-- The parsing loop preserves distinctness of the keys. -/
theorem parseFold_nodup (pf ip : List Nat) (inp : List Str) :
    ∀ (lines : List Str) (acc : Snapshot), (snapKeys acc).Nodup →
      (snapKeys (parseLsofLinesFold pf ip inp lines acc)).Nodup := by
  intro lines
  induction lines with
  | nil => intro acc h; simpa [parseLsofLinesFold] using h
  | cons l ls ih =>
    intro acc h
    have hstep : (snapKeys (parseLsofStep pf ip inp acc l)).Nodup := by
      unfold parseLsofStep
      split
      · exact nodup_insertR acc _ _ h
      · exact h
    simpa [parseLsofLinesFold, List.foldl_cons] using
      ih (parseLsofStep pf ip inp acc l) hstep

/-- Worker lemma: `List.findSome?` over an appended list tries the first part
first. -/
theorem findSome?_append_aux {α β : Type} (f : α → Option β) :
    ∀ (l₁ l₂ : List α),
      ((l₁ ++ l₂).findSome? f) =
        match l₁.findSome? f with
        | some b => some b
        | none => l₂.findSome? f := by
  intro l₁ l₂
  induction l₁ with
  | nil => simp
  | cons a l ih =>
    simp only [List.cons_append, List.findSome?_cons]
    cases f a <;> simp [ih]

/-- The lookup produced by the parsing loop is the record of the last
accepted line for the key, falling back to the accumulator. -/
theorem lookup_parseFold (pf ip : List Nat) (inp : List Str) :
    ∀ (lines : List Str) (acc : Snapshot) (k : Nat),
      lookupPort (parseLsofLinesFold pf ip inp lines acc) k =
        match lastForLines pf ip inp lines k with
        | some v => some v
        | none => lookupPort acc k := by
  intro lines
  induction lines with
  | nil => intro acc k; simp [parseLsofLinesFold, lastForLines]
  | cons l ls ih =>
    intro acc k
    have hfold : parseLsofLinesFold pf ip inp (l :: ls) acc =
        parseLsofLinesFold pf ip inp ls (parseLsofStep pf ip inp acc l) := by
      simp [parseLsofLinesFold, List.foldl_cons]
    rw [hfold, ih]
    have hsplit : lastForLines pf ip inp (l :: ls) k =
        match lastForLines pf ip inp ls k with
        | some v => some v
        | none =>
          match parseLsofLine pf ip inp l with
          | some kv => if kv.1 = k then some kv.2 else none
          | none => none := by
      unfold lastForLines
      rw [List.reverse_cons, findSome?_append_aux]
      cases ls.reverse.findSome?
          (fun line =>
            match parseLsofLine pf ip inp line with
            | some kv => if kv.1 = k then some kv.2 else none
            | none => none) with
      | some v => simp
      | none =>
        simp only [List.findSome?]
        cases parseLsofLine pf ip inp l with
        | none => rfl
        | some kv => by_cases hk : kv.1 = k <;> simp [hk]
    rw [hsplit]
    cases hlast : lastForLines pf ip inp ls k with
    | some v => rfl
    | none =>
      unfold parseLsofStep
      cases hkv : parseLsofLine pf ip inp l with
      | none => simp
      | some kv =>
        simp only []
        rw [lookupPort_insertR]
        by_cases hk : kv.1 = k <;> simp [hk]

/-- Any per-element property implied by line acceptance is an invariant of
the chunked scanning loop. -/
theorem scanChunks_inv (ports ip : List Nat) (inp : List Str) (env : LsofEnv)
    (P : Nat × ProcessInfo → Prop)
    (hP : ∀ line kv, parseLsofLine ports ip inp line = some kv → P kv) :
    ∀ (chunks : List (List Nat)) (st : Snapshot × List LsofQuery),
      (∀ e ∈ st.1, P e) →
      ∀ e ∈ (chunks.foldl (scanChunkStep ports ip inp env) st).1, P e := by
  intro chunks
  induction chunks with
  | nil => intro st h e he; exact h e (by simpa using he)
  | cons c cs ih =>
    intro st h e he
    have hstep : ∀ e ∈ (scanChunkStep ports ip inp env st c).1, P e := by
      intro e he'
      simp only [scanChunkStep] at he'
      split at he'
      · exact parseFold_inv ports ip inp P hP _ st.1 h e he'
      · exact h e he'
    exact ih (scanChunkStep ports ip inp env st c) hstep e
      (by simpa [List.foldl_cons] using he)

/-- Any per-element property implied by line acceptance holds of every entry
of a scanned snapshot. -/
theorem scan_inv_aux (ports ip : List Nat) (inp : List Str) (env : LsofEnv)
    (P : Nat × ProcessInfo → Prop)
    (hP : ∀ line kv, parseLsofLine ports ip inp line = some kv → P kv) :
    ∀ e ∈ (get_processes_on_ports ports ip inp env).2.1, P e := by
  intro e he
  unfold get_processes_on_ports at he
  split at he
  · simp at he
  · unfold get_processes_on_ports_unix at he
    split at he
    · simp only [] at he
      split at he
      · exact parseFold_inv ports ip inp P hP _ [] (by simp) e he
      · simp at he
    · exact scanChunks_inv ports ip inp env P hP (chunksPorts ports) ([], [])
        (by simp) e he

/-- Escaping one character prepends its escape block. -/
theorem regexEscape_cons (c : Char) (p : Str) :
    regexEscape (c :: p) =
      (if isMetaChar c then ['\\', c] else [c]) ++ regexEscape p := by
  by_cases h : isMetaChar c <;> simp [regexEscape, h]

/-- An escaped string never starts with a bare wildcard character. -/
theorem escape_head_safe (p : Str) :
    (regexEscape p).head? ≠ some '*' ∧ (regexEscape p).head? ≠ some '?' := by
  cases p with
  | nil => simp [regexEscape]
  | cons c p =>
    rw [regexEscape_cons]
    by_cases h : isMetaChar c
    · simp [h]
    · simp only [if_neg h, List.cons_append, List.head?_cons, ne_eq, Option.some.injEq]
      exact ⟨fun hc => h (by rw [hc]; rfl), fun hc => h (by rw [hc]; rfl)⟩

/-- The first replacement processes an escaped string block by block. -/
theorem stageOne_cons (c : Char) (p : Str) :
    stageOne (c :: p) = starBlock c ++ stageOne p := by
  unfold stageOne starBlock
  rw [regexEscape_cons]
  by_cases hstar : c = '*'
  · subst hstar
    simp [replacePair]
  · by_cases hmeta : isMetaChar c
    · simp only [if_pos hmeta, if_neg hstar, List.cons_append, List.nil_append]
      cases hE : regexEscape p with
      | nil => simp [replacePair, hstar]
      | cons e t =>
        have he : e ≠ '*' := by
          intro hh
          exact (escape_head_safe p).1 (by rw [hE, hh]; rfl)
        simp [replacePair, hstar, he]
    · have hc : c ≠ '\\' := fun hh => hmeta (by rw [hh]; rfl)
      simp only [if_neg hmeta, if_neg hstar, List.cons_append, List.nil_append]
      cases hE : regexEscape p with
      | nil => simp [replacePair]
      | cons e t => simp [replacePair, hc]

/-- The intermediate string never starts with a bare question mark. -/
theorem stageOne_head_safe (p : Str) : (stageOne p).head? ≠ some '?' := by
  cases p with
  | nil => simp [stageOne, regexEscape, replacePair]
  | cons c p =>
    rw [stageOne_cons]
    unfold starBlock
    by_cases hstar : c = '*'
    · simp [hstar]
    · by_cases hmeta : isMetaChar c
      · simp [hstar, hmeta]
      · simp only [if_neg hstar, if_neg hmeta, List.cons_append, List.nil_append,
          List.head?_cons, ne_eq, Option.some.injEq]
        exact fun hc => hmeta (by rw [hc]; rfl)

/-- The second replacement processes the intermediate string block by
block. -/
theorem replaceQm_block (c : Char) (R : Str) (hR : R.head? ≠ some '?') :
    replacePair '\\' '?' ['.'] (starBlock c ++ R) =
      atomBlock c ++ replacePair '\\' '?' ['.'] R := by
  unfold starBlock atomBlock
  by_cases hstar : c = '*'
  · subst hstar
    simp only [if_pos rfl]
    cases R with
    | nil => simp [replacePair]
    | cons e t => simp [replacePair]
  · by_cases hqm : c = '?'
    · subst hqm
      simp [replacePair, hstar]
    · by_cases hmeta : isMetaChar c
      · simp only [if_neg hstar, if_neg hqm, if_pos hmeta, List.cons_append,
          List.nil_append]
        cases R with
        | nil => simp [replacePair, hqm]
        | cons e t =>
          have he : e ≠ '?' := by
            intro hh
            exact hR (by rw [hh]; rfl)
          simp [replacePair, hqm, he]
      · have hc : c ≠ '\\' := fun hh => hmeta (by rw [hh]; rfl)
        simp only [if_neg hstar, if_neg hqm, if_neg hmeta, List.cons_append,
          List.nil_append]
        cases R with
        | nil => simp [replacePair]
        | cons e t => simp [replacePair, hc]

/-- The compiled body of one more pattern character prepends its atom
block. -/
theorem compiledBody_cons (c : Char) (p : Str) :
    compiledBody (c :: p) = atomBlock c ++ compiledBody p := by
  have h1 : compiledBody (c :: p) = replacePair '\\' '?' ['.'] (stageOne (c :: p)) := rfl
  rw [h1, stageOne_cons, replaceQm_block c (stageOne p) (stageOne_head_safe p)]
  rfl

/-- The compiled body never starts with a bare star. -/
theorem compiledBody_head_safe (p : Str) : (compiledBody p).head? ≠ some '*' := by
  cases p with
  | nil => simp [compiledBody, stageOne, regexEscape, replacePair]
  | cons c p =>
    rw [compiledBody_cons]
    unfold atomBlock
    by_cases hstar : c = '*'
    · simp [hstar]
    · by_cases hqm : c = '?'
      · simp [hstar, hqm]
      · by_cases hmeta : isMetaChar c
        · simp [hstar, hqm, hmeta]
        · simp only [if_neg hstar, if_neg hqm, if_neg hmeta, List.cons_append,
            List.nil_append, List.head?_cons, ne_eq, Option.some.injEq]
          exact hstar

/-- Reading the atoms of one atom block followed by a safe remainder. -/
theorem readAtoms_block (c : Char) (B : Str) (hB : B.head? ≠ some '*') :
    readAtoms (atomBlock c ++ B) = atomOf c :: readAtoms B := by
  unfold atomBlock atomOf
  by_cases hstar : c = '*'
  · subst hstar
    simp [readAtoms]
  · by_cases hqm : c = '?'
    · subst hqm
      simp only [if_neg (by decide : ¬('?' : Char) = '*'), if_pos rfl,
        List.cons_append, List.nil_append]
      cases B with
      | nil => simp [readAtoms]
      | cons e t =>
        have he : e ≠ '*' := by
          intro hh
          exact hB (by rw [hh]; rfl)
        simp [readAtoms, he]
    · by_cases hmeta : isMetaChar c
      · simp [readAtoms, hstar, hqm, hmeta]
      · have hc1 : c ≠ '\\' := fun hh => hmeta (by rw [hh]; rfl)
        have hc2 : c ≠ '.' := fun hh => hmeta (by rw [hh]; rfl)
        simp only [if_neg hstar, if_neg hqm, if_neg hmeta, List.cons_append,
          List.nil_append]
        rw [readAtoms.eq_def]
        simp [hc1, hc2]

/-- The atoms of the compiled body are exactly the atoms the pattern's
characters denote. -/
theorem readAtoms_compiledBody (p : Str) :
    readAtoms (compiledBody p) = p.map atomOf := by
  induction p with
  | nil => rfl
  | cons c p ih =>
    rw [compiledBody_cons, readAtoms_block c _ (compiledBody_head_safe p), ih]
    rfl

/-- Pointwise equal continuations give equal star matches. -/
theorem starSkip_congr (f g : Str → Bool) (h : ∀ t, f t = g t) :
    ∀ s, starSkip f s = starSkip g s := by
  intro s
  induction s with
  | nil => simp [starSkip, h]
  | cons c s ih => simp [starSkip, h, ih]

/-- Matching the denoted atoms is wildcard matching in which neither wildcard
accepts a newline. -/
theorem matchAtoms_map_atomOf (p : Str) :
    ∀ s, matchAtoms (p.map atomOf) s = globMatchNoNewline p s := by
  induction p with
  | nil => intro s; rfl
  | cons c p ih =>
    intro s
    by_cases hstar : c = '*'
    · subst hstar
      have h1 : matchAtoms (List.map atomOf ('*' :: p)) s =
          starSkip (fun t => matchAtoms (List.map atomOf p) t) s := rfl
      have h2 : globMatchNoNewline ('*' :: p) s =
          starSkip (fun t => globMatchNoNewline p t) s := by
        simp [globMatchNoNewline]
      rw [h1, h2]
      exact starSkip_congr _ _ ih s
    · by_cases hqm : c = '?'
      · subst hqm
        cases s <;> simp [globMatchNoNewline, matchAtoms, atomOf, ih]
      · cases s <;> simp [globMatchNoNewline, matchAtoms, atomOf, hstar, hqm, ih]

/-- Characterization of `should_ignore_process` as the disjunction of its
five checks; since the result is one boolean, the first-match-wins evaluation
order coincides with this disjunction. -/
theorem should_ignore_iff_aux (f : SmartFilter) (info : ProcessInfo) :
    should_ignore_process f info = true ↔
      info.port ∈ f.ignore_ports ∨
      info.name ∈ f.ignore_processes ∨
      (∃ p ∈ f.ignore_patterns,
        patternMatches p info.name = true ∨ patternMatches p info.command = true) ∨
      (∃ g, info.process_group = some g ∧ g ∈ f.ignore_groups) ∨
      (∃ og, f.only_groups = some og ∧
        (info.process_group = none ∨ ∃ g, info.process_group = some g ∧ g ∉ og)) := by
  rcases hg : info.process_group with _ | g <;> rcases ho : f.only_groups with _ | og <;>
    simp only [should_ignore_process, hg, ho] <;>
    split_ifs with h1 h2 h3 h4 <;>
    simp_all [List.any_eq_true]

/-! ## Claim theorems -/

/-- C1: for every pid, the per-pid kill first sends the graceful termination
signal and proceeds to the fixed 500 ms wait and the liveness re-check even
when delivery fails (the action sequence does not depend on the delivery
flag); it sends the forced signal exactly when the pid is still alive after
the grace period; it never raises an error to its caller; and its outcome is
always classified as graceful, escalated, or unknown according to
`killClassify`. -/
theorem kill_process_escalation_contract (pid : Int) (env : KillEnv) :
    (kill_process pid env).1 = Except.ok () ∧
    (kill_process pid env).2.1 =
      [KillEvent.sendSigterm, KillEvent.waitMillis 500, KillEvent.checkStillRunning] ++
        (if env.stillRunningAfterGrace then [KillEvent.sendSigkill] else []) ∧
    (kill_process pid env).2.2 = killClassify env := by
  refine ⟨?_, ?_, kill_process_class pid env⟩ <;>
    rcases env with ⟨t, r, k⟩ <;> cases r <;> rfl

/-- C8: in every state the event loop can reach, at most one kill worker is
active, the in-flight flag is set exactly while a worker is active, and a
display-layer kill request arriving while the flag is set is dropped (only
the drop counter changes; no worker is started and nothing is queued). -/
theorem at_most_one_kill_worker (evs : List LoopEvent) :
    (runLoop evs).activeWorkers ≤ 1 ∧
    ((runLoop evs).isKilling = true ↔ (runLoop evs).activeWorkers = 1) ∧
    ((runLoop evs).isKilling = true →
      loopStep (runLoop evs) LoopEvent.menuRequest =
        { runLoop evs with droppedRequests := (runLoop evs).droppedRequests + 1 }) := by
  refine ⟨(runLoop_inv evs).1, (runLoop_inv evs).2, ?_⟩
  intro h
  simp [loopStep, h]

/-- Witness for C8 at the event sequence consisting of one accepted request:
the flag is then set, and a second request is dropped. -/
theorem at_most_one_kill_worker_witness :
    (runLoop [LoopEvent.menuRequest]).activeWorkers ≤ 1 ∧
    loopStep (runLoop [LoopEvent.menuRequest]) LoopEvent.menuRequest =
      { runLoop [LoopEvent.menuRequest] with
          droppedRequests := (runLoop [LoopEvent.menuRequest]).droppedRequests + 1 } :=
  ⟨(at_most_one_kill_worker [LoopEvent.menuRequest]).1,
    (at_most_one_kill_worker [LoopEvent.menuRequest]).2.2 (by decide)⟩

/-- C9: pre-publish validation only filters, so the validated count never
exceeds the raw scanned count, every surviving record is alive, every record
that is still alive survives, and the published count is always the
validated count (also through the empty-map branch). -/
theorem validated_publish_count (running : Int → Bool) (ps : Snapshot) :
    (validateProcesses running ps).length ≤ ps.length ∧
    (∀ e ∈ validateProcesses running ps, running e.2.pid = true) ∧
    (∀ e ∈ ps, running e.2.pid = true → e ∈ validateProcesses running ps) ∧
    menuUpdateCount running ps = (validateProcesses running ps).length := by
  refine ⟨List.length_filter_le _ _, ?_, ?_, ?_⟩
  · intro e he
    exact (List.mem_filter.mp he).2
  · intro e he h
    exact List.mem_filter.mpr ⟨he, h⟩
  · by_cases h : validateProcesses running ps = [] <;> simp [menuUpdateCount, h]

/-- Witness for C9 at a concrete snapshot with one live and one dead pid. -/
theorem validated_publish_count_witness :
    (3000, plainRec 1 3000) ∈ validateProcesses (fun p : Int => p == 1) samplePs ∧
    (validateProcesses (fun p : Int => p == 1) samplePs).length ≤ samplePs.length :=
  ⟨(validated_publish_count (fun p : Int => p == 1) samplePs).2.2.1
      (3000, plainRec 1 3000) (by decide) (by decide),
    (validated_publish_count (fun p : Int => p == 1) samplePs).1⟩

/-- C2: `should_ignore_process` returns true exactly when one of its five
checks matches — port in ignore-ports, name in ignore-process-names, some
compiled pattern matching the name or the raw command, the derived group in
ignore-groups, or a present only-groups set that does not contain the
record's group (or the record has no group); the checks are evaluated in this
order with the first match winning, which for one boolean result coincides
with their disjunction. If none match the record is visible. -/
theorem should_ignore_process_characterization (f : SmartFilter) (info : ProcessInfo) :
    should_ignore_process f info = true ↔
      info.port ∈ f.ignore_ports ∨
      info.name ∈ f.ignore_processes ∨
      (∃ p ∈ f.ignore_patterns,
        patternMatches p info.name = true ∨ patternMatches p info.command = true) ∨
      (∃ g, info.process_group = some g ∧ g ∈ f.ignore_groups) ∨
      (∃ og, f.only_groups = some og ∧
        (info.process_group = none ∨ ∃ g, info.process_group = some g ∧ g ∉ og)) :=
  should_ignore_iff_aux f info

/-- C5 (amended): `should_ignore_process` is monotonic in the four ignore
lists — extending ignore-ports, ignore-process-names, ignore-name-patterns or
ignore-groups by one entry preserves every ignored record. (Extending the
only-groups allow-set does not: see the counterexample.) -/
theorem should_ignore_monotone_ignore_lists (f : SmartFilter) (info : ProcessInfo)
    (h : should_ignore_process f info = true) :
    (∀ q : Nat,
      should_ignore_process { f with ignore_ports := q :: f.ignore_ports } info = true) ∧
    (∀ n : Str,
      should_ignore_process { f with ignore_processes := n :: f.ignore_processes } info = true) ∧
    (∀ p : Str,
      should_ignore_process { f with ignore_patterns := p :: f.ignore_patterns } info = true) ∧
    (∀ g : Str,
      should_ignore_process { f with ignore_groups := g :: f.ignore_groups } info = true) := by
  rw [should_ignore_iff_aux] at h
  refine ⟨fun q => ?_, fun n => ?_, fun p => ?_, fun g => ?_⟩ <;>
    rw [should_ignore_iff_aux] <;>
    simp only [List.mem_cons] <;>
    rcases h with h | h | ⟨p', hp', hm⟩ | ⟨g', hg', hm⟩ | ⟨og, hog, hm⟩ <;>
    first
      | tauto
      | exact Or.inr (Or.inr (Or.inl ⟨p', hp', hm⟩))
      | exact Or.inr (Or.inr (Or.inl ⟨p', Or.inr hp', hm⟩))
      | exact Or.inr (Or.inr (Or.inr (Or.inl ⟨g', hg', hm⟩)))
      | exact Or.inr (Or.inr (Or.inr (Or.inl ⟨g', hg', Or.inr hm⟩)))
      | exact Or.inr (Or.inr (Or.inr (Or.inr ⟨og, hog, hm⟩)))

/-- Witness for C5 (amended): a record ignored by its port stays ignored
after each of the four ignore lists gains one entry. -/
theorem should_ignore_monotone_ignore_lists_witness :
    should_ignore_process
      { ignore_ports := 3000 :: [], ignore_processes := [], ignore_patterns := [],
        ignore_groups := [], only_groups := none } groupBRecord = true ∧
    should_ignore_process
      { ignore_ports := 9999 :: 3000 :: [], ignore_processes := [], ignore_patterns := [],
        ignore_groups := [], only_groups := none } groupBRecord = true :=
  ⟨by decide,
    (should_ignore_monotone_ignore_lists
        { ignore_ports := 3000 :: [], ignore_processes := [], ignore_patterns := [],
          ignore_groups := [], only_groups := none } groupBRecord (by decide)).1 9999⟩

/-- Counterexample for C5: under a filter whose only rule is the allow-set
only-groups = [A], a record of group B is ignored; adding the single entry B
to the only-groups set makes the same record visible again, so adding a rule
to the only-groups list can remove records from the ignored set. -/
theorem should_ignore_only_groups_not_monotone :
    should_ignore_process onlyGroupsFilterA groupBRecord = true ∧
    should_ignore_process
      { onlyGroupsFilterA with only_groups := some ("B".data :: ["A".data]) }
      groupBRecord = false := by
  refine ⟨by decide, by decide⟩

/-- C3: every port key of a scanned snapshot belongs to the requested set,
and the empty requested set produces count zero and an empty snapshot with no
lsof invocation at all. -/
theorem scan_keys_subset_requested (ports ip : List Nat) (inp : List Str)
    (env : LsofEnv) :
    (∀ e ∈ (get_processes_on_ports ports ip inp env).2.1, e.1 ∈ ports) ∧
    get_processes_on_ports [] ip inp env = (0, [], []) := by
  constructor
  · by_cases hp : ports = []
    · subst hp
      intro e he
      simp [get_processes_on_ports] at he
    · intro e he
      refine scan_inv_aux ports ip inp env (fun e => e.1 ∈ ports) ?_ e he
      intro line kv hkv
      exact (parseLsofLine_mem ports ip inp line kv.1 kv.2 (by simpa using hkv)).1 hp
  · simp [get_processes_on_ports]

/-- Witness for C3 at a concrete scan over requested ports 3000 and 8080
whose enumeration output also reports port 9999: the record on port 3000 is
in the snapshot and its key is a requested port. -/
theorem scan_keys_subset_requested_witness :
    (3000, nodeRec3000) ∈ (get_processes_on_ports [3000, 8080] [] [] sampleScanEnv).2.1 ∧
    (3000, nodeRec3000).1 ∈ [3000, 8080] :=
  ⟨by decide,
    (scan_keys_subset_requested [3000, 8080] [] [] sampleScanEnv).1
      (3000, nodeRec3000) (by decide)⟩

/-- C4 (amended): every snapshot built by the parser maps each port key to at
most one record (its keys are pairwise distinct), and when the enumeration
output reports several records for one port, the record kept is the LAST one
observed, because `HashMap::insert` replaces the existing value. -/
theorem snapshot_unique_key_last_wins (stdout : Str) (pf ip : List Nat)
    (inp : List Str) (k : Nat) :
    (snapKeys (parse_lsof_output_filtered stdout pf ip inp [])).Nodup ∧
    lookupPort (parse_lsof_output_filtered stdout pf ip inp []) k =
      lastAcceptedFor stdout pf ip inp k := by
  constructor
  · exact parseFold_nodup pf ip inp _ [] (by simp [snapKeys])
  · unfold parse_lsof_output_filtered lastAcceptedFor
    rw [lookup_parseFold]
    cases lastForLines pf ip inp ((rustLines stdout).drop 1) k <;> simp [lookupPort]

/-- Counterexample for C4 as stated: an lsof output whose two data lines
report pid 111 and then pid 222 on the same port 3000; both lines are
individually accepted, yet the snapshot keeps the second record (pid 222),
not the first — the last observed record wins, not the first. -/
theorem parse_duplicate_port_keeps_last_observed :
    (parseLsofLine [3000] [] [] lsofLineNode3000).map (fun kv => kv.2.pid) = some 111 ∧
    (parseLsofLine [3000] [] [] lsofLineRuby3000).map (fun kv => kv.2.pid) = some 222 ∧
    (parse_lsof_output_filtered dupPortStdout [3000] [] [] []).map
      (fun e => (e.1, e.2.pid)) = [(3000, 222)] := by
  refine ⟨by decide, by decide, by decide⟩

/-- C10: a scanned snapshot already excludes the configured ignore entries:
no key is an ignored port and no record's name is an ignored process name,
because both lists are applied while parsing the enumeration output. -/
theorem scan_excludes_ignored (ports ip : List Nat) (inp : List Str)
    (env : LsofEnv) :
    ∀ e ∈ (get_processes_on_ports ports ip inp env).2.1,
      e.1 ∉ ip ∧ e.2.name ∉ inp := by
  intro e he
  refine scan_inv_aux ports ip inp env
    (fun e => e.1 ∉ ip ∧ e.2.name ∉ inp) ?_ e he
  intro line kv hkv
  have h := parseLsofLine_mem ports ip inp line kv.1 kv.2 (by simpa using hkv)
  exact ⟨h.2.1, h.2.2.1⟩

/-- Witness for C10 at a concrete scan with a non-empty ignore-ports list and
a non-empty ignore-process-names list. -/
theorem scan_excludes_ignored_witness :
    (3000, nodeRec3000) ∈
      (get_processes_on_ports [3000, 8080] [9999] ["ruby".data] sampleScanEnv).2.1 ∧
    (3000, nodeRec3000).1 ∉ [9999] ∧ (3000, nodeRec3000).2.name ∉ ["ruby".data] :=
  ⟨by decide,
    scan_excludes_ignored [3000, 8080] [9999] ["ruby".data] sampleScanEnv
      (3000, nodeRec3000) (by decide)⟩

/-- C6 (amended): the bulk kill resolves the current owners of the given
ports through the enumeration tool, removes entries whose port is in
ignore-ports or whose name is in ignore-process-names (the pattern and group
rules of the rule set are not applied on this path — see the counterexample),
and calls the per-pid kill on every remaining pid sequentially; one pid's
failure does not abort the batch: the log contains one classified outcome per
resolved pid, and which pids are attempted does not depend on any per-pid
failure. The outcomes and the found-count are only logged, never returned: in
the chunked regime (at most 200 ports, failed per-chunk enumerations skipped)
the caller always receives plain unit success, and in the large-range regime
the caller receives plain unit success unless the single enumeration
invocation itself fails, in which case an error is returned and nothing is
killed. -/
theorem kill_bulk_logs_outcomes (ports ip : List Nat) (inp : List Str)
    (env : LsofEnv) (kenv : Int → KillEnv) :
    (ports.length ≤ LARGE_RANGE_THRESHOLD →
      (kill_all_processes ports ip inp env kenv).1 = Except.ok () ∧
      (kill_all_processes ports ip inp env kenv).2 =
        (resolvePidsChunked ports ip inp env).map
          (fun pid => (pid, killClassify (kenv pid)))) ∧
    (ports.length > LARGE_RANGE_THRESHOLD →
      (env LsofQuery.allTcp = none →
        kill_all_processes ports ip inp env kenv =
          (Except.error "Failed to run lsof".data, [])) ∧
      (∀ stdout, env LsofQuery.allTcp = some stdout →
        (kill_all_processes ports ip inp env kenv).1 = Except.ok () ∧
        (kill_all_processes ports ip inp env kenv).2 =
          (extract_pids_from_lsof_output stdout ports ip inp []).map
            (fun pid => (pid, killClassify (kenv pid))))) := by
  constructor
  · intro hle
    by_cases hp : ports = []
    · subst hp
      exact ⟨rfl, rfl⟩
    · unfold kill_all_processes kill_all_processes_unix
      rw [if_neg hp, if_neg (by omega)]
      unfold runKillLoop
      refine ⟨rfl, ?_⟩
      simp only []
      exact List.map_congr_left (fun pid _ => by rw [kill_process_class])
  · intro hgt
    have hp : ports ≠ [] := by
      intro hh
      rw [hh] at hgt
      simp [LARGE_RANGE_THRESHOLD] at hgt
    constructor
    · intro hnone
      unfold kill_all_processes kill_all_processes_unix
      rw [if_neg hp, if_pos hgt, hnone]
    · intro stdout hsome
      unfold kill_all_processes kill_all_processes_unix
      rw [if_neg hp, if_pos hgt, hsome]
      unfold runKillLoop
      refine ⟨rfl, ?_⟩
      simp only []
      exact List.map_congr_left (fun pid _ => by rw [kill_process_class])

/-- Witness for C6 (amended), discharging both regime hypotheses: the
concrete two-port chunked scenario, and a 201-port request whose single
large-range enumeration cannot be invoked. -/
theorem kill_bulk_logs_outcomes_witness :
    (kill_all_processes [3000, 8080] [] [] bulkScanEnv kenvMixed).1 = Except.ok () ∧
    (kill_all_processes [3000, 8080] [] [] bulkScanEnv kenvMixed).2 =
      (resolvePidsChunked [3000, 8080] [] [] bulkScanEnv).map
        (fun pid => (pid, killClassify (kenvMixed pid))) ∧
    kill_all_processes (List.range 201) [] [] failLsofEnv kenvAllGraceful =
      (Except.error "Failed to run lsof".data, []) :=
  ⟨((kill_bulk_logs_outcomes [3000, 8080] [] [] bulkScanEnv kenvMixed).1 (by decide)).1,
    ((kill_bulk_logs_outcomes [3000, 8080] [] [] bulkScanEnv kenvMixed).1 (by decide)).2,
    ((kill_bulk_logs_outcomes (List.range 201) [] [] failLsofEnv kenvAllGraceful).2
        (by rw [List.length_range]; decide)).1 rfl⟩

/-- Counterexample for C6 as stated: over ports 3000 and 8080 owned by pids
111 and 222, a run in which pid 111's signal delivery fails while pid 222
terminates gracefully is logged as one unknown and one graceful outcome, yet
the value returned to the caller is the same plain `Ok(())` as in a run where
both pids terminate gracefully — the returned value carries no outcome list
and no count, so the claim that the outcomes are collected and returned
together with a count is false. Moreover the entries removed are not those
matched by the full rule set: the node record is ignored by a rule set whose
pattern node-star matches it, yet pid 111 is still attempted (and killed) by
the bulk path, which consults only the two ignore lists. -/
theorem kill_bulk_return_carries_no_outcomes :
    (kill_all_processes [3000, 8080] [] [] bulkScanEnv kenvMixed).2 =
      [(111, KillClass.unknownOutcome), (222, KillClass.graceful)] ∧
    (kill_all_processes [3000, 8080] [] [] bulkScanEnv kenvAllGraceful).2 =
      [(111, KillClass.graceful), (222, KillClass.graceful)] ∧
    (kill_all_processes [3000, 8080] [] [] bulkScanEnv kenvMixed).1 =
      (kill_all_processes [3000, 8080] [] [] bulkScanEnv kenvAllGraceful).1 ∧
    (kill_all_processes [3000, 8080] [] [] bulkScanEnv kenvMixed).1 =
      Except.ok () ∧
    parseLsofLine [3000, 8080] [] [] lsofLineNode3000 = some (3000, nodeRec3000) ∧
    should_ignore_process nodePatternFilter nodeRec3000 = true ∧
    (kill_all_processes [3000, 8080] [] [] bulkScanEnv kenvMixed).2.map
      (fun e => e.1) = [111, 222] := by
  refine ⟨by decide, by decide, rfl, rfl, by decide, by decide, by decide⟩

/-- C7 (amended): a compiled ignore pattern matches a candidate string
exactly when the whole candidate matches the glob in which `*` stands for any
run of non-newline characters, `?` for any single non-newline character, and
every other character (including regex metacharacters such as the dot) only
for itself — the newline exclusion comes from regex `.` not matching `\n`. -/
theorem pattern_matches_iff_noNewline_glob (p s : Str) :
    patternMatches p s = globMatchNoNewline p s := by
  unfold patternMatches
  rw [readAtoms_compiledBody]
  exact matchAtoms_map_atomOf p s

/-- Counterexample for C7 as stated: against the candidate consisting of one
newline character, the pattern consisting of one `?` does not match under the
compiled regex, although `?` standing for ANY single character would have to
match it; the claim's own examples (pattern node-star matching nodemon and
not matching go) do hold. -/
theorem pattern_newline_not_any_character :
    patternMatches ['?'] ['\n'] = false ∧
    specGlobMatch ['?'] ['\n'] = true ∧
    patternMatches "node*".data "nodemon".data = true ∧
    patternMatches "node*".data "go".data = false := by
  refine ⟨by decide, by decide, by decide, by decide⟩

end PortKill
